import Mathlib

/-!
PECU premium license validator (`premium.js`).

A shallow embedding of the license-key utilities (`Utils.formatLicenseKey`,
`Utils.isValidLicenseFormat`), the retrying request executor (`ApiClient.request`),
the validation workflow (`LicenseValidator.validate`) and the two pieces of the UI manager
that compute values (`UI.showValidationSuccess`, `UI.formatLicenseInput`).

JavaScript strings are Lean strings (sequences of code points). `jsLength` counts UTF-16
code units, as `String.prototype.length` and `selectionStart` do. Lone surrogates, which a
Lean string cannot hold, are outside the model.
-/

namespace Premium

/-! ## String primitives of the host language -/

deriving instance DecidableEq for Except

/-- The `length` of a JavaScript string: UTF-16 code units, two for a character outside the
Basic Multilingual Plane. -/
def jsLength (s : String) : Nat :=
  (s.data.map fun c => if c.toNat < 65536 then 1 else 2).sum

/-- The character class `[A-Z0-9]`. -/
def isUpperAlnum (c : Char) : Bool :=
  (65 ≤ c.toNat && c.toNat ≤ 90) || (48 ≤ c.toNat && c.toNat ≤ 57)

/-- `key.replace(/[^A-Z0-9]/g, '')`: every character outside `[A-Z0-9]` is deleted. -/
def replaceNonUpperAlnum (key : String) : String :=
  ⟨key.data.filter isUpperAlnum⟩

/-- Line terminators, the characters the regular-expression dot does not match. -/
def isLineTerminator (c : Char) : Bool :=
  c.toNat = 10 || c.toNat = 13 || c.toNat = 8232 || c.toNat = 8233

/-- Scanner behind `matchDot14`: `cur` is the match being extended (at most three characters
when a character is read); a fourth character or a line terminator closes it. -/
def matchDot14Aux (cur : List Char) : List Char → List String
  | [] => if cur.isEmpty then [] else [⟨cur⟩]
  | c :: cs =>
    if isLineTerminator c then
      (if cur.isEmpty then [] else [⟨cur⟩]) ++ matchDot14Aux [] cs
    else if cur.length = 3 then ⟨cur ++ [c]⟩ :: matchDot14Aux [] cs
    else matchDot14Aux (cur ++ [c]) cs

/-- `s.match(/.{1,4}/g)`: the successive greedy matches of one to four characters other than
line terminators. The empty list stands for `null` (no match at all). -/
def matchDot14 (s : String) : List String :=
  matchDot14Aux [] s.data

/-- `parts.join(sep)`. -/
def join (sep : String) (parts : List String) : String :=
  sep.intercalate parts

/-- Characters outside ASCII whose Unicode uppercase mapping contains an ASCII letter, with
that mapping (UnicodeData and SpecialCasing, locale-independent). -/
def specialUpper : List (Char × List Char) :=
  [ (Char.ofNat 0x00DF, ['S', 'S']),                 -- ß
    (Char.ofNat 0x0131, ['I']),                      -- ı
    (Char.ofNat 0x0149, [Char.ofNat 0x02BC, 'N']),   -- ŉ
    (Char.ofNat 0x017F, ['S']),                      -- ſ
    (Char.ofNat 0x01F0, ['J', Char.ofNat 0x030C]),   -- ǰ
    (Char.ofNat 0x1E96, ['H', Char.ofNat 0x0331]),   -- ẖ
    (Char.ofNat 0x1E97, ['T', Char.ofNat 0x0308]),   -- ẗ
    (Char.ofNat 0x1E98, ['W', Char.ofNat 0x030A]),   -- ẘ
    (Char.ofNat 0x1E99, ['Y', Char.ofNat 0x030A]),   -- ẙ
    (Char.ofNat 0x1E9A, ['A', Char.ofNat 0x02BE]),   -- ẚ
    (Char.ofNat 0xFB00, ['F', 'F']),                 -- ﬀ
    (Char.ofNat 0xFB01, ['F', 'I']),                 -- ﬁ
    (Char.ofNat 0xFB02, ['F', 'L']),                 -- ﬂ
    (Char.ofNat 0xFB03, ['F', 'F', 'I']),            -- ﬃ
    (Char.ofNat 0xFB04, ['F', 'F', 'L']),            -- ﬄ
    (Char.ofNat 0xFB05, ['S', 'T']),                 -- ﬅ
    (Char.ofNat 0xFB06, ['S', 'T']) ]                -- ﬆ

/-- Uppercase mapping of one character as `String.prototype.toUpperCase` applies it. ASCII
letters and the characters of `specialUpper` are mapped exactly. Any other character has an
uppercase form made of non-ASCII characters only; it is kept as it is, which no ASCII-only
pattern or comparison can tell apart. -/
def upperChar (c : Char) : List Char :=
  if 97 ≤ c.toNat ∧ c.toNat ≤ 122 then [Char.ofNat (c.toNat - 32)]
  else (specialUpper.lookup c).getD [c]

/-- `s.toUpperCase()`. -/
def toUpperCase (s : String) : String :=
  ⟨s.data.flatMap upperChar⟩

/-! ## Utils -/

/-- `Utils.formatLicenseKey`. -/
def formatLicenseKey (key : String) : String :=
  let cleaned := replaceNonUpperAlnum key
  if jsLength cleaned ≤ 4 then cleaned
  else
    let formatted := join "-" (matchDot14 cleaned)
    toUpperCase formatted

/-- An element of the license pattern: a literal character or the class `[A-Z0-9]`. -/
inductive Atom where
  | lit (c : Char)
  | upperAlnum
  deriving DecidableEq, Repr

/-- One pattern element against one character. -/
def Atom.test : Atom → Char → Bool
  | .lit a, c => c = a
  | .upperAlnum, c => isUpperAlnum c

/-- A sequence of one-character pattern elements against a whole string (anchored by `^` and
`$`, no flags). -/
def matchSeq : List Atom → List Char → Bool
  | [], [] => true
  | a :: as, c :: cs => a.test c && matchSeq as cs
  | _, _ => false

/-- Whether an atom accepts ASCII characters only. -/
def Atom.ascii : Atom → Bool
  | .lit a => decide (a.toNat < 128)
  | .upperAlnum => true

/-- The pattern `/^PECU-[A-Z0-9]{4}-[A-Z0-9]{4}-[A-Z0-9]{4}-[A-Z0-9]{4}$/`. -/
def licensePattern : List Atom :=
  [.lit 'P', .lit 'E', .lit 'C', .lit 'U'] ++
  (.lit '-' :: List.replicate 4 .upperAlnum) ++
  (.lit '-' :: List.replicate 4 .upperAlnum) ++
  (.lit '-' :: List.replicate 4 .upperAlnum) ++
  (.lit '-' :: List.replicate 4 .upperAlnum)

/-- `Utils.isValidLicenseFormat`. -/
def isValidLicenseFormat (key : String) : Bool :=
  matchSeq licensePattern (toUpperCase key).data

/-- `Utils.formatDate`. The host call `new Date(dateString).toLocaleDateString('en-US', …)` is
the parameter `toLocaleDateString`. On a string it never throws (a text that is not a date is
rendered as "Invalid Date"), so the `catch` branch of the source is never taken. -/
def formatDate (toLocaleDateString : String → String) (dateString : Option String) : String :=
  match dateString with
  | none => "—"
  | some d => if d = "" then "—" else toLocaleDateString d

/-! ## Configuration -/

/-- The `CONFIG` object (endpoints flattened). -/
structure Config where
  API_BASE_URL : String
  VALIDATE : String
  HEALTH : String
  TIMEOUT : Nat
  RETRY_ATTEMPTS : Nat
  RETRY_DELAY : Nat
  deriving DecidableEq, Repr

/-- The values `premium.js` ships with. -/
def CONFIG : Config :=
  { API_BASE_URL := "https://api.pecu.tools"
    VALIDATE := "/api/v1/license/validate"
    HEALTH := "/api/v1/health"
    TIMEOUT := 30000
    RETRY_ATTEMPTS := 3
    RETRY_DELAY := 1000 }

/-! ## API client -/

/-- A thrown JavaScript error: its `name` and its `message`. -/
structure JsError where
  name : String
  message : String
  deriving DecidableEq, Repr

/-- The `user` object of a validation payload. -/
structure User where
  plan : Option String
  deriving DecidableEq, Repr

/-- The parsed body of a validation response: the fields of the remote contract, plus the
`user` object that `UI.showValidationSuccess` reads. `none` is an absent field. -/
structure Payload where
  valid : Bool
  error : Option String
  user : Option User
  plan : Option String
  downloads_remaining : Option Int
  expiry_date : Option String
  features : Option (List String)
  deriving DecidableEq, Repr

/-- What one `fetch` attempt does: the promise rejects (an `AbortError` when the per-attempt
timer aborts it, any other error for a transport failure), or a response arrives with a status,
a status text and the result of `response.json()`. -/
inductive FetchResult where
  | rejected (e : JsError)
  | response (status : Nat) (statusText : String) (json : Except JsError Payload)
  deriving DecidableEq

/-- The JSON body of the validate call. -/
structure RequestBody where
  license_key : String
  hardware_hash : String
  deriving DecidableEq, Repr

/-- Observable steps of the executor: a `fetch` (with the attempt number, the abort timer and
the request) and a `Utils.sleep`. -/
inductive Event where
  | fetch (attempt : Nat) (url : String) (method : String) (body : Option RequestBody)
      (timeout : Nat)
  | sleep (ms : Nat)
  deriving DecidableEq, Repr

/-- The object `ApiClient.request` returns: `{ success: true, data, status }` or
`{ success: false, error, status }`. -/
inductive ApiResponse where
  | success (data : Payload) (status : Nat)
  | failure (error : String) (status : Nat)
  deriving DecidableEq, Repr

/-- `response.ok`: a status in the range 200-299. -/
def responseOk (status : Nat) : Bool :=
  200 ≤ status && status ≤ 299

/-- The `try` block of one attempt: the data and status it returns, or the error it throws. -/
def attemptBody : FetchResult → Except JsError (Payload × Nat)
  | .rejected e => .error e
  | .response status statusText json =>
    if !responseOk status then
      .error ⟨"Error", "HTTP " ++ toString status ++ ": " ++ statusText⟩
    else
      match json with
      | .error e => .error e
      | .ok data => .ok (data, status)

/-- The `for` loop of `ApiClient.request`, entered with `attempt` and `remaining` iterations
left before `attempt <= CONFIG.RETRY_ATTEMPTS` fails. `server attempt` is what the network does
at that attempt. Leaving the loop returns `undefined` (`none`). -/
def requestLoop (cfg : Config) (url method : String) (body : Option RequestBody)
    (server : Nat → FetchResult) : (remaining attempt : Nat) → Option ApiResponse × List Event
  | 0, _ => (none, [])
  | remaining + 1, attempt =>
    let ev := Event.fetch attempt url method body cfg.TIMEOUT
    match attemptBody (server attempt) with
    | .ok (data, status) => (some (.success data status), [ev])
    | .error error =>
      if attempt = cfg.RETRY_ATTEMPTS then
        (some (.failure (if error.name = "AbortError" then "Request timeout" else error.message) 0),
          [ev])
      else
        let rest := requestLoop cfg url method body server remaining (attempt + 1)
        (rest.1, ev :: Event.sleep (cfg.RETRY_DELAY * attempt) :: rest.2)

/-- `ApiClient.request`: the loop runs from attempt 1 while `attempt <= RETRY_ATTEMPTS`. -/
def request (cfg : Config) (endpoint method : String) (body : Option RequestBody)
    (server : Nat → FetchResult) : Option ApiResponse × List Event :=
  requestLoop cfg (cfg.API_BASE_URL ++ endpoint) method body server cfg.RETRY_ATTEMPTS 1

/-- `ApiClient.validateLicense` with its default hardware hash. -/
def validateLicense (cfg : Config) (server : Nat → FetchResult) (licenseKey : String)
    (hardwareHash : String := "browser-check") : Option ApiResponse × List Event :=
  request cfg cfg.VALIDATE "POST" (some ⟨licenseKey, hardwareHash⟩) server

/-- `ApiClient.checkHealth`. -/
def checkHealth (cfg : Config) (server : Nat → FetchResult) : Option ApiResponse × List Event :=
  request cfg cfg.HEALTH "GET" none server

/-! ## License validator -/

/-- `value || fallback` for an optional string: an absent or empty string is falsy. -/
def orElse (value : Option String) (fallback : String) : String :=
  match value with
  | none => fallback
  | some s => if s = "" then fallback else s

/-- The error thrown for a malformed key. -/
def malformedError : JsError :=
  ⟨"Error", "Invalid license key format. Please check your license key and try again."⟩

/-- `LicenseValidator.validate`: the value returned or the error thrown, and the executor steps
performed. Reading `success` of an `undefined` response throws a `TypeError`. -/
def validate (cfg : Config) (server : Nat → FetchResult) (licenseKey : String) :
    Except JsError Payload × List Event :=
  let formattedKey := formatLicenseKey licenseKey
  if !isValidLicenseFormat formattedKey then (.error malformedError, [])
  else
    let response := validateLicense cfg server formattedKey
    match response.1 with
    | none =>
      (.error ⟨"TypeError", "Cannot read properties of undefined (reading 'success')"⟩, response.2)
    | some (.failure error _) => (.error ⟨"Error", orElse (some error) "Network error"⟩, response.2)
    | some (.success data _) =>
      if !data.valid then (.error ⟨"Error", orElse data.error "Invalid license"⟩, response.2)
      else (.ok data, response.2)

/-! ## UI manager -/

/-- The value of `data.downloads_remaining ?? '∞'`: the number, or the text. -/
inductive Downloads where
  | count (n : Int)
  | text (s : String)
  deriving DecidableEq, Repr

/-- The constants `UI.showValidationSuccess` computes from the payload. -/
structure SuccessView where
  plan : String
  downloadsRemaining : Downloads
  expiryDate : String
  features : List String
  deriving DecidableEq, Repr

/-- The first lines of `UI.showValidationSuccess`: `user`, `plan`, `downloadsRemaining`,
`expiryDate`, `features`. -/
def showValidationSuccess (toLocaleDateString : String → String) (data : Payload) :
    SuccessView :=
  let user : User := data.user.getD ⟨none⟩
  { plan := orElse user.plan "Unknown"
    downloadsRemaining :=
      match data.downloads_remaining with
      | some n => .count n
      | none => .text "∞"
    expiryDate := formatDate toLocaleDateString data.expiry_date
    features := data.features.getD [] }

/-- The license input: its text and `selectionStart`. -/
structure InputField where
  value : String
  selectionStart : Int
  deriving DecidableEq, Repr

/-- `UI.formatLicenseInput`: the field afterwards, `selectionStart` being the offset handed to
`setSelectionRange`. -/
def formatLicenseInput (input : InputField) : InputField :=
  let cursorPos := input.selectionStart
  let oldValue := input.value
  let newValue := formatLicenseKey oldValue
  if oldValue ≠ newValue then
    let addedChars : Int := (jsLength newValue : Int) - (jsLength oldValue : Int)
    let newCursorPos := min (cursorPos + addedChars) (jsLength newValue : Int)
    { value := newValue, selectionStart := newCursorPos }
  else input

/-! ## The shape of a license key, in the specification's words -/

/-- An ASCII letter of either case, or a digit. -/
def isAsciiAlnum (c : Char) : Bool :=
  (65 ≤ c.toNat && c.toNat ≤ 90) || (97 ≤ c.toNat && c.toNat ≤ 122) ||
    (48 ≤ c.toNat && c.toNat ≤ 57)

/-- What the character at offset `i` of a key of the shape `PECU-XXXX-XXXX-XXXX-XXXX` may be:
the prefix letters in either case, `-` at offsets 4, 9, 14 and 19, an ASCII letter or digit
elsewhere. -/
def shapeAt (i : Nat) (c : Char) : Bool :=
  if i = 0 then c = 'P' || c = 'p'
  else if i = 1 then c = 'E' || c = 'e'
  else if i = 2 then c = 'C' || c = 'c'
  else if i = 3 then c = 'U' || c = 'u'
  else if i = 4 ∨ i = 9 ∨ i = 14 ∨ i = 19 then c = '-'
  else isAsciiAlnum c

/-- Exactly 24 characters, each one allowed at its offset by `shapeAt`. -/
def hasLicenseShape (k : String) : Bool :=
  k.data.length = 24 && k.data.enum.all fun p => shapeAt p.1 p.2

/-- The non-ASCII characters that `toUpperCase` turns into ASCII letters only:
ß, ı, ſ and the ligatures ﬀ, ﬁ, ﬂ, ﬃ, ﬄ, ﬅ, ﬆ. -/
def asciiFolding : List Char :=
  [Char.ofNat 0x00DF, Char.ofNat 0x0131, Char.ofNat 0x017F, Char.ofNat 0xFB00,
   Char.ofNat 0xFB01, Char.ofNat 0xFB02, Char.ofNat 0xFB03, Char.ofNat 0xFB04,
   Char.ofNat 0xFB05, Char.ofNat 0xFB06]

/-! ## Normalization, in the specification's words -/

/-- Uppercasing of an ASCII letter; any other character is unchanged. -/
def asciiUpper (c : Char) : Char :=
  if 97 ≤ c.toNat ∧ c.toNat ≤ 122 then Char.ofNat (c.toNat - 32) else c

/-- A lowercase ASCII letter. -/
def isAsciiLower (c : Char) : Bool :=
  97 ≤ c.toNat && c.toNat ≤ 122

/-- Consecutive groups of four characters, the last one possibly shorter. -/
def groupsOf4 : List Char → List (List Char)
  | [] => []
  | a :: b :: c :: d :: rest => [a, b, c, d] :: groupsOf4 rest
  | short => [short]

/-- The normalization the specification describes (not the code): delete every character that
is not an ASCII letter or digit, uppercase the rest, and when more than four characters remain
join their groups of four with `-`. -/
def specNormalize (raw : String) : String :=
  let kept := (raw.data.filter isAsciiAlnum).map asciiUpper
  if kept.length ≤ 4 then ⟨kept⟩ else ⟨List.intercalate ['-'] (groupsOf4 kept)⟩

/-! ## Vocabulary for the executor claims -/

/-- An attempt fails when its `try` block throws. -/
def Fails (r : FetchResult) : Prop :=
  ∃ e, attemptBody r = .error e

/-- The attempt numbers of the fetches in a trace, in order. -/
def attemptsOf : List Event → List Nat
  | [] => []
  | .fetch attempt _ _ _ _ :: evs => attempt :: attemptsOf evs
  | .sleep _ :: evs => attemptsOf evs

/-- The suspensions in a trace, in order. -/
def sleepsOf : List Event → List Nat
  | [] => []
  | .fetch _ _ _ _ _ :: evs => sleepsOf evs
  | .sleep ms :: evs => ms :: sleepsOf evs

/-- The trace of attempts `first`, `first + 1`, …, `first + failures`, each but the last one
followed by a suspension of `RETRY_DELAY` times its number. -/
def runTrace (cfg : Config) (url method : String) (body : Option RequestBody) (first : Nat) :
    (failures : Nat) → List Event
  | 0 => [.fetch first url method body cfg.TIMEOUT]
  | failures + 1 =>
    .fetch first url method body cfg.TIMEOUT :: .sleep (cfg.RETRY_DELAY * first) ::
      runTrace cfg url method body (first + 1) failures

/-- Following the specification's words for the cursor rule (not the code): the number of
separators that normalization puts in front of the text lying before offset `c`. The `k` kept
characters before the cursor have `(k - 1) / 4` separators between them; there is none when the
key is not grouped. -/
def separatorsBefore (v : String) (c : Nat) : Nat :=
  let k := (replaceNonUpperAlnum ⟨v.data.take c⟩).data.length
  if (replaceNonUpperAlnum v).data.length ≤ 4 then 0 else (k - 1) / 4

/-! ## Sample networks and payloads -/

/-- A payload with every optional field absent. -/
def emptyPayload (valid : Bool) : Payload :=
  { valid := valid, error := none, user := none, plan := none, downloads_remaining := none,
    expiry_date := none, features := none }

/-- A well-formed key. -/
def sampleKey : String := "PECU-AB12-CD34-EF56-GH78"

/-- A network whose first two attempts fail in transport and whose third succeeds with `data`. -/
def thirdTimeLucky (data : Payload) : Nat → FetchResult := fun attempt =>
  if attempt = 3 then .response 200 "OK" (.ok data)
  else .rejected ⟨"TypeError", "Failed to fetch"⟩

/-- A network on which every attempt is aborted by the per-attempt timer. -/
def alwaysTimeout : Nat → FetchResult := fun _ =>
  .rejected ⟨"AbortError", "The operation was aborted."⟩

/-- A network that times out twice and then answers 500. -/
def timeoutThen500 : Nat → FetchResult := fun attempt =>
  if attempt = 3 then .response 500 "Internal Server Error" (.ok (emptyPayload false))
  else .rejected ⟨"AbortError", "The operation was aborted."⟩

/-- A network that answers every attempt with 500. -/
def always500 : Nat → FetchResult := fun _ =>
  .response 500 "Internal Server Error" (.ok (emptyPayload false))

/-- A network that answers the first attempt with `data`. -/
def answers (data : Payload) : Nat → FetchResult := fun _ =>
  .response 200 "OK" (.ok data)

/-- The payload `{valid: false, error: "License expired"}`. -/
def expiredPayload : Payload :=
  { emptyPayload false with error := some "License expired" }

/-- The payload `{valid: false, error: ""}`. -/
def emptyErrorPayload : Payload :=
  { emptyPayload false with error := some "" }

/-- The payload `{valid: true, plan: "Pro", features: ["a","b"]}`. -/
def proPayload : Payload :=
  { emptyPayload true with plan := some "Pro", features := some ["a", "b"] }

/-- The payload
`{valid: true, user: {plan: "Pro"}, downloads_remaining: 5, expiry_date: "not-a-date"}`. -/
def userProPayload : Payload :=
  { emptyPayload true with
    user := some ⟨some "Pro"⟩, downloads_remaining := some 5, expiry_date := some "not-a-date" }

/-- The host rendering restricted to texts that are not dates: each is rendered as
"Invalid Date". -/
def invalidDates : String → String := fun _ => "Invalid Date"

/-! ## Lemmas on the string primitives -/

theorem data_intercalate_go (sep : String) (l : List String) (acc : String) :
    (String.intercalate.go acc sep l).data = acc.data ++ l.flatMap fun a => sep.data ++ a.data := by
  induction l generalizing acc with
  | nil => simp [String.intercalate.go]
  | cons a as ih => simp [String.intercalate.go, ih, List.append_assoc]

theorem data_join (sep : String) (parts : List String) :
    (join sep parts).data =
      match parts with
      | [] => []
      | a :: as => a.data ++ as.flatMap fun b => sep.data ++ b.data := by
  cases parts with
  | nil => rfl
  | cons a as => simp [join, String.intercalate, data_intercalate_go]

theorem filter_data_join (p : Char → Bool) (sep : String) (parts : List String)
    (hsep : ∀ c ∈ sep.data, p c = false) :
    (join sep parts).data.filter p = (parts.flatMap fun a => a.data).filter p := by
  have hs : sep.data.filter p = [] := by
    rw [List.filter_eq_nil_iff]; intro c hc; simp [hsep c hc]
  cases parts with
  | nil => rfl
  | cons a as =>
    rw [data_join]
    simp only [List.filter_append, List.flatMap_cons]
    congr 1
    induction as with
    | nil => rfl
    | cons b bs ih => simp only [List.flatMap_cons, List.filter_append, hs, List.nil_append, ih]

theorem mem_data_join (sep : String) (parts : List String) (c : Char)
    (h : c ∈ (join sep parts).data) : c ∈ sep.data ∨ ∃ a ∈ parts, c ∈ a.data := by
  cases parts with
  | nil => simp [data_join] at h
  | cons a as =>
    rw [data_join] at h
    simp only [List.mem_append, List.mem_flatMap] at h
    rcases h with h | ⟨b, hb, h | h⟩
    · exact Or.inr ⟨a, by simp, h⟩
    · exact Or.inl h
    · exact Or.inr ⟨b, by simp [hb], h⟩

theorem flatMap_data_matchDot14Aux (s cur : List Char) :
    ((matchDot14Aux cur s).flatMap fun a => a.data) =
      cur ++ s.filter fun c => !isLineTerminator c := by
  induction s generalizing cur with
  | nil => cases cur <;> simp [matchDot14Aux]
  | cons c cs ih =>
    unfold matchDot14Aux
    by_cases hc : isLineTerminator c = true
    · cases cur <;> simp [hc, ih]
    · by_cases h3 : cur.length = 3 <;> simp [hc, h3, ih]

theorem jsLength_eq_length (l : List Char) (h : ∀ c ∈ l, c.toNat < 65536) :
    jsLength ⟨l⟩ = l.length := by
  unfold jsLength
  induction l with
  | nil => rfl
  | cons a as ih =>
    have ha : a.toNat < 65536 := h a (by simp)
    have := ih fun c hc => h c (by simp [hc])
    simp only [List.map_cons, List.sum_cons, ha, if_true] at this ⊢
    rw [this]; simp [Nat.add_comm]

theorem isUpperAlnum_bound (c : Char) (h : isUpperAlnum c = true) : c.toNat < 97 := by
  simp only [isUpperAlnum, Bool.or_eq_true, Bool.and_eq_true, decide_eq_true_eq] at h
  omega

theorem isUpperAlnum_not_lineTerminator (c : Char) (h : isUpperAlnum c = true) :
    isLineTerminator c = false := by
  simp only [isUpperAlnum, Bool.or_eq_true, Bool.and_eq_true, decide_eq_true_eq] at h
  simp only [isLineTerminator, Bool.or_eq_false_iff, decide_eq_false_iff_not]
  omega

theorem specialUpper_keys : ∀ p ∈ specialUpper, 128 ≤ p.1.toNat := by decide

theorem lookup_specialUpper_ascii (c : Char) (h : c.toNat < 128) :
    specialUpper.lookup c = none := by
  rw [List.lookup_eq_none_iff]
  intro p hp
  have h1 := specialUpper_keys p hp
  rw [bne_iff_ne]
  intro h2
  rw [h2] at h
  omega

theorem upperChar_of_lt (c : Char) (h : c.toNat < 97) : upperChar c = [c] := by
  unfold upperChar
  rw [if_neg (by omega), lookup_specialUpper_ascii c (by omega)]
  rfl

theorem toUpperCase_of_lt (l : List Char) (h : ∀ c ∈ l, c.toNat < 97) :
    toUpperCase ⟨l⟩ = ⟨l⟩ := by
  unfold toUpperCase
  congr 1
  induction l with
  | nil => rfl
  | cons a as ih =>
    simp only [List.flatMap_cons]
    rw [upperChar_of_lt a (h a (by simp)), ih fun c hc => h c (by simp [hc])]
    rfl

/-! ## Lemmas on `formatLicenseKey` -/

theorem mem_matchDot14_data (s : String) (a : String) (ha : a ∈ matchDot14 s) (c : Char)
    (hc : c ∈ a.data) : c ∈ s.data := by
  have h : c ∈ (matchDot14Aux [] s.data).flatMap fun a => a.data :=
    List.mem_flatMap.mpr ⟨a, ha, hc⟩
  rw [flatMap_data_matchDot14Aux] at h
  simp only [List.nil_append, List.mem_filter] at h
  exact h.1

theorem joined_lt (l : List Char) (h : ∀ c ∈ l, isUpperAlnum c = true) :
    ∀ c ∈ (join "-" (matchDot14 ⟨l⟩)).data, c.toNat < 97 := by
  intro c hc
  rcases mem_data_join _ _ c hc with hsep | ⟨a, ha, hca⟩
  · have : c = '-' := by simpa using hsep
    subst this
    decide
  · exact isUpperAlnum_bound c (h c (mem_matchDot14_data ⟨l⟩ a ha c hca))

theorem filter_joined (l : List Char) (h : ∀ c ∈ l, isUpperAlnum c = true) :
    (join "-" (matchDot14 ⟨l⟩)).data.filter isUpperAlnum = l := by
  rw [filter_data_join isUpperAlnum "-" _ (by decide), matchDot14, flatMap_data_matchDot14Aux]
  simp only [List.nil_append, List.filter_filter]
  rw [List.filter_eq_self]
  intro c hc
  simp [h c hc, isUpperAlnum_not_lineTerminator c (h c hc)]

theorem cleaned_upperAlnum (key : String) :
    ∀ c ∈ (replaceNonUpperAlnum key).data, isUpperAlnum c = true := by
  intro c hc
  simp only [replaceNonUpperAlnum, List.mem_filter] at hc
  exact hc.2

/-- What `formatLicenseKey` returns, with the uppercasing (which changes nothing) removed. -/
theorem formatLicenseKey_eq (key : String) :
    formatLicenseKey key =
      if (replaceNonUpperAlnum key).data.length ≤ 4 then replaceNonUpperAlnum key
      else join "-" (matchDot14 (replaceNonUpperAlnum key)) := by
  have hlen : jsLength (replaceNonUpperAlnum key) = (replaceNonUpperAlnum key).data.length :=
    jsLength_eq_length _ fun c hc => by
      have := isUpperAlnum_bound c (cleaned_upperAlnum key c hc)
      omega
  unfold formatLicenseKey
  simp only [hlen]
  split
  · rfl
  · exact toUpperCase_of_lt _ (joined_lt _ (cleaned_upperAlnum key))

theorem replace_formatLicenseKey (key : String) :
    replaceNonUpperAlnum (formatLicenseKey key) = replaceNonUpperAlnum key := by
  rw [formatLicenseKey_eq]
  split
  · simp [replaceNonUpperAlnum, List.filter_filter]
  · show (⟨_⟩ : String) = _
    rw [filter_joined _ (cleaned_upperAlnum key)]

/-! ## Lemmas on `isValidLicenseFormat` -/

theorem char_eq_iff (c d : Char) : c = d ↔ c.toNat = d.toNat := by
  constructor
  · intro h; rw [h]
  · intro h
    rw [← Char.ofNat_toNat c, ← Char.ofNat_toNat d, h]

theorem toNat_ofNat_small (n : Nat) (h : n < 55296) : (Char.ofNat n).toNat = n := by
  have hv : n.isValidChar := Or.inl h
  simp only [Char.ofNat, hv, dite_true, Char.ofNatAux, Char.toNat]
  show (UInt32.ofNat' n _).toNat = n
  rfl

theorem toNat_asciiUpper (c : Char) :
    (asciiUpper c).toNat = if 97 ≤ c.toNat ∧ c.toNat ≤ 122 then c.toNat - 32 else c.toNat := by
  unfold asciiUpper
  split
  · rw [toNat_ofNat_small _ (by omega)]
  · rfl

theorem matchSeq_map_enumFrom (pat : List Atom) :
    ∀ (l : List Char) (n : Nat),
      (∀ i a c, pat[i]? = some a → a.test (asciiUpper c) = shapeAt (n + i) c) →
      matchSeq pat (l.map asciiUpper) =
        (decide (l.length = pat.length) && (l.enumFrom n).all fun p => shapeAt p.1 p.2) := by
  induction pat with
  | nil =>
    intro l n _
    cases l <;> simp [matchSeq]
  | cons a as ih =>
    intro l n h
    cases l with
    | nil => simp [matchSeq]
    | cons c cs =>
      have h0 : a.test (asciiUpper c) = shapeAt n c := by simpa using h 0 a c (by simp)
      have ih1 := ih cs (n + 1) fun i b d hb => by
        have := h (i + 1) b d (by simpa using hb)
        rw [this]; congr 1; omega
      simp only [List.map_cons, matchSeq, h0, ih1, List.enumFrom_cons, List.all_cons,
        List.length_cons, Nat.add_right_cancel_iff]
      cases shapeAt n c <;> simp

theorem lit_upper_test (a c : Char) (ha : 65 ≤ a.toNat ∧ a.toNat ≤ 90) :
    (Atom.lit a).test (asciiUpper c) = (decide (c = a) || decide (c.toNat = a.toNat + 32)) := by
  have h := toNat_asciiUpper c
  simp only [Atom.test, char_eq_iff (asciiUpper c) a, char_eq_iff c a, h]
  by_cases hc : 97 ≤ c.toNat ∧ c.toNat ≤ 122
  · rw [if_pos hc, Bool.eq_iff_iff]
    simp only [decide_eq_true_eq, Bool.or_eq_true]
    omega
  · rw [if_neg hc, Bool.eq_iff_iff]
    simp only [decide_eq_true_eq, Bool.or_eq_true]
    omega

theorem dash_upper_test (c : Char) : (Atom.lit '-').test (asciiUpper c) = decide (c = '-') := by
  have h := toNat_asciiUpper c
  have hd : ('-' : Char).toNat = 45 := rfl
  simp only [Atom.test, char_eq_iff (asciiUpper c) '-', char_eq_iff c '-', h, hd]
  by_cases hc : 97 ≤ c.toNat ∧ c.toNat ≤ 122
  · rw [if_pos hc, Bool.eq_iff_iff]
    simp only [decide_eq_true_eq]
    omega
  · rw [if_neg hc]

theorem class_upper_test (c : Char) : Atom.upperAlnum.test (asciiUpper c) = isAsciiAlnum c := by
  have h := toNat_asciiUpper c
  simp only [Atom.test, isUpperAlnum, isAsciiAlnum, h]
  by_cases hc : 97 ≤ c.toNat ∧ c.toNat ≤ 122
  · rw [if_pos hc, Bool.eq_iff_iff]
    simp only [Bool.or_eq_true, Bool.and_eq_true, decide_eq_true_eq]
    omega
  · rw [if_neg hc, Bool.eq_iff_iff]
    simp only [Bool.or_eq_true, Bool.and_eq_true, decide_eq_true_eq]
    omega

theorem licensePattern_shapeAt (i : Nat) (a : Atom) (c : Char)
    (h : licensePattern[i]? = some a) : a.test (asciiUpper c) = shapeAt (0 + i) c := by
  rw [Nat.zero_add]
  by_cases hi : i < 24
  · have hP : ('p' : Char).toNat = ('P' : Char).toNat + 32 := rfl
    have hE : ('e' : Char).toNat = ('E' : Char).toNat + 32 := rfl
    have hC : ('c' : Char).toNat = ('C' : Char).toNat + 32 := rfl
    have hU : ('u' : Char).toNat = ('U' : Char).toNat + 32 := rfl
    interval_cases i <;>
      simp only [licensePattern, List.replicate, List.cons_append, List.nil_append,
        List.getElem?_cons_zero, List.getElem?_cons_succ, Option.some.injEq] at h <;>
      subst h
    · rw [lit_upper_test _ _ (by decide)]; simp [shapeAt, char_eq_iff c 'p', hP]
    · rw [lit_upper_test _ _ (by decide)]; simp [shapeAt, char_eq_iff c 'e', hE]
    · rw [lit_upper_test _ _ (by decide)]; simp [shapeAt, char_eq_iff c 'c', hC]
    · rw [lit_upper_test _ _ (by decide)]; simp [shapeAt, char_eq_iff c 'u', hU]
    all_goals first
      | (rw [dash_upper_test]; simp [shapeAt])
      | (rw [class_upper_test]; simp [shapeAt])
  · have : licensePattern.length ≤ i := by
      have : licensePattern.length = 24 := rfl
      omega
    rw [List.getElem?_eq_none this] at h
    cases h

theorem toUpperCase_plain (l : List Char) (h : ∀ c ∈ l, specialUpper.lookup c = none) :
    toUpperCase ⟨l⟩ = ⟨l.map asciiUpper⟩ := by
  unfold toUpperCase
  congr 1
  induction l with
  | nil => rfl
  | cons a as ih =>
    have ha : upperChar a = [asciiUpper a] := by
      unfold upperChar asciiUpper
      split
      · rfl
      · rw [h a (by simp)]; rfl
    simp only [List.flatMap_cons, List.map_cons, ha, ih fun c hc => h c (by simp [hc])]
    rfl

theorem isValid_plain (k : String) (h : ∀ c ∈ k.data, specialUpper.lookup c = none) :
    isValidLicenseFormat k = hasLicenseShape k := by
  unfold isValidLicenseFormat hasLicenseShape
  have hk : k = ⟨k.data⟩ := rfl
  rw [hk, toUpperCase_plain k.data h]
  rw [matchSeq_map_enumFrom licensePattern k.data 0 licensePattern_shapeAt]
  rfl

theorem mem_of_lookup_eq_some (l : List (Char × List Char)) (c : Char) (e : List Char)
    (h : l.lookup c = some e) : (c, e) ∈ l := by
  induction l with
  | nil => simp at h
  | cons p ps ih =>
    obtain ⟨k, v⟩ := p
    by_cases hk : c = k
    · subst hk
      simp only [List.lookup_cons, beq_self_eq_true, Option.some.injEq] at h
      subst h
      simp
    · have hb : (c == k) = false := by simpa using hk
      simp only [List.lookup_cons, hb] at h
      exact List.mem_cons_of_mem _ (ih h)

theorem specialUpper_expansion :
    ∀ p ∈ specialUpper, p.1 ∈ asciiFolding ∨ p.2.any (fun d => decide (128 ≤ d.toNat)) = true := by
  decide

theorem upperChar_nonAscii (c : Char) (hl : specialUpper.lookup c ≠ none)
    (hf : c ∉ asciiFolding) : ∃ d ∈ upperChar c, 128 ≤ d.toNat := by
  obtain ⟨e, he⟩ := Option.ne_none_iff_exists'.mp hl
  have hmem := mem_of_lookup_eq_some _ _ _ he
  have hkey := specialUpper_keys _ hmem
  have hnot : ¬ (97 ≤ c.toNat ∧ c.toNat ≤ 122) := by
    simp only at hkey
    omega
  rcases specialUpper_expansion _ hmem with h | h
  · exact absurd h hf
  · obtain ⟨d, hd, hd2⟩ := List.any_eq_true.mp h
    refine ⟨d, ?_, by simpa using hd2⟩
    unfold upperChar
    rw [if_neg hnot, he]
    exact hd

theorem matchSeq_mem (pat : List Atom) :
    ∀ l : List Char, matchSeq pat l = true → ∀ d ∈ l, ∃ a ∈ pat, a.test d = true := by
  induction pat with
  | nil =>
    intro l h d hd
    cases l with
    | nil => simp at hd
    | cons c cs => simp [matchSeq] at h
  | cons a as ih =>
    intro l h d hd
    cases l with
    | nil => simp at hd
    | cons c cs =>
      simp only [matchSeq, Bool.and_eq_true] at h
      rcases List.mem_cons.mp hd with rfl | hd
      · exact ⟨a, by simp, h.1⟩
      · obtain ⟨b, hb, hbt⟩ := ih cs h.2 d hd
        exact ⟨b, List.mem_cons_of_mem _ hb, hbt⟩

theorem licensePattern_ascii : ∀ a ∈ licensePattern, a.ascii = true := by decide

theorem Atom.test_ascii (a : Atom) (d : Char) (ha : a.ascii = true) (h : a.test d = true) :
    d.toNat < 128 := by
  cases a with
  | lit x =>
    simp only [Atom.test, decide_eq_true_eq] at h
    subst h
    simpa [Atom.ascii] using ha
  | upperAlnum =>
    have := isUpperAlnum_bound d h
    omega

theorem isValid_ascii (k : String) (h : isValidLicenseFormat k = true) :
    ∀ d ∈ (toUpperCase k).data, d.toNat < 128 := by
  intro d hd
  obtain ⟨a, ha, hat⟩ := matchSeq_mem _ _ h d hd
  exact Atom.test_ascii a d (licensePattern_ascii a ha) hat

theorem shapeAt_ascii (i : Nat) (c : Char) (h : shapeAt i c = true) : c.toNat < 128 := by
  unfold shapeAt at h
  split at h
  · rcases (by simpa using h : c = 'P' ∨ c = 'p') with h | h <;> (subst h; decide)
  split at h
  · rcases (by simpa using h : c = 'E' ∨ c = 'e') with h | h <;> (subst h; decide)
  split at h
  · rcases (by simpa using h : c = 'C' ∨ c = 'c') with h | h <;> (subst h; decide)
  split at h
  · rcases (by simpa using h : c = 'U' ∨ c = 'u') with h | h <;> (subst h; decide)
  split at h
  · have h5 : c = '-' := by simpa using h
    subst h5; decide
  · simp only [isAsciiAlnum, Bool.or_eq_true, Bool.and_eq_true, decide_eq_true_eq] at h
    omega

theorem all_enumFrom_mem (f : Nat × Char → Bool) :
    ∀ (l : List Char) (n : Nat), (l.enumFrom n).all f = true → ∀ c ∈ l, ∃ i, f (i, c) = true := by
  intro l
  induction l with
  | nil => intro n _ c hc; simp at hc
  | cons a as ih =>
    intro n h c hc
    simp only [List.enumFrom_cons, List.all_cons, Bool.and_eq_true] at h
    rcases List.mem_cons.mp hc with rfl | hc
    · exact ⟨n, h.1⟩
    · exact ih (n + 1) h.2 c hc

theorem hasLicenseShape_ascii (k : String) (h : hasLicenseShape k = true) :
    ∀ c ∈ k.data, c.toNat < 128 := by
  intro c hc
  simp only [hasLicenseShape, Bool.and_eq_true] at h
  obtain ⟨i, hi⟩ := all_enumFrom_mem _ k.data 0 h.2 c hc
  exact shapeAt_ascii i c hi

theorem isValid_eq_shape (k : String) (hk : ∀ c ∈ k.data, c ∉ asciiFolding) :
    isValidLicenseFormat k = hasLicenseShape k := by
  by_cases hall : ∀ c ∈ k.data, specialUpper.lookup c = none
  · exact isValid_plain k hall
  · simp only [not_forall] at hall
    obtain ⟨c, hc, hl⟩ := hall
    have h1 : isValidLicenseFormat k = false := by
      rw [Bool.eq_false_iff]
      intro hv
      obtain ⟨d, hd, hd2⟩ := upperChar_nonAscii c hl (hk c hc)
      have := isValid_ascii k hv d (by
        simp only [toUpperCase, List.mem_flatMap]
        exact ⟨c, hc, hd⟩)
      omega
    have h2 : hasLicenseShape k = false := by
      rw [Bool.eq_false_iff]
      intro hs
      have := hasLicenseShape_ascii k hs c hc
      exact hl (lookup_specialUpper_ascii c this)
    rw [h1, h2]

/-! ## Lemmas on the executor -/

theorem attemptsOf_runTrace (cfg : Config) (url method : String) (body : Option RequestBody) :
    ∀ d first, attemptsOf (runTrace cfg url method body first d) = List.range' first (d + 1) := by
  intro d
  induction d with
  | zero => intro first; rfl
  | succ d ih =>
    intro first
    simp only [runTrace, attemptsOf, ih (first + 1)]
    rw [List.range'_succ first (d + 1)]

theorem sleepsOf_runTrace (cfg : Config) (url method : String) (body : Option RequestBody) :
    ∀ d first, sleepsOf (runTrace cfg url method body first d) =
      (List.range' first d).map fun n => cfg.RETRY_DELAY * n := by
  intro d
  induction d with
  | zero => intro first; rfl
  | succ d ih =>
    intro first
    simp only [runTrace, sleepsOf, ih (first + 1)]
    rw [List.range'_succ first d]
    rfl

theorem requestLoop_success (cfg : Config) (url method : String) (body : Option RequestBody)
    (server : Nat → FetchResult) (data : Payload) (status : Nat) :
    ∀ d remaining attempt, remaining + attempt = cfg.RETRY_ATTEMPTS + 1 →
      attempt + d ≤ cfg.RETRY_ATTEMPTS →
      (∀ j, attempt ≤ j → j < attempt + d → Fails (server j)) →
      attemptBody (server (attempt + d)) = .ok (data, status) →
      requestLoop cfg url method body server remaining attempt =
        (some (.success data status), runTrace cfg url method body attempt d) := by
  intro d
  induction d with
  | zero =>
    intro remaining attempt hinv hle _ hok
    obtain ⟨r, rfl⟩ : ∃ r, remaining = r + 1 := ⟨remaining - 1, by omega⟩
    simp only [Nat.add_zero] at hok
    simp only [requestLoop, hok, runTrace]
  | succ d ih =>
    intro remaining attempt hinv hle hfail hok
    obtain ⟨r, rfl⟩ : ∃ r, remaining = r + 1 := ⟨remaining - 1, by omega⟩
    obtain ⟨e, he⟩ := hfail attempt (Nat.le_refl _) (by omega)
    have hne : attempt ≠ cfg.RETRY_ATTEMPTS := by omega
    have hrec := ih r (attempt + 1) (by omega) (by omega)
      (fun j h1 h2 => hfail j (by omega) (by omega))
      (by rw [show attempt + 1 + d = attempt + (d + 1) by omega]; exact hok)
    simp only [requestLoop, he, hne, if_false, hrec, runTrace]

theorem requestLoop_failure (cfg : Config) (url method : String) (body : Option RequestBody)
    (server : Nat → FetchResult) (last : JsError) :
    ∀ d remaining attempt, remaining + attempt = cfg.RETRY_ATTEMPTS + 1 →
      attempt + d = cfg.RETRY_ATTEMPTS →
      (∀ j, attempt ≤ j → j < attempt + d → Fails (server j)) →
      attemptBody (server cfg.RETRY_ATTEMPTS) = .error last →
      requestLoop cfg url method body server remaining attempt =
        (some (.failure (if last.name = "AbortError" then "Request timeout" else last.message) 0),
          runTrace cfg url method body attempt d) := by
  intro d
  induction d with
  | zero =>
    intro remaining attempt hinv hle _ hlast
    obtain ⟨r, rfl⟩ : ∃ r, remaining = r + 1 := ⟨remaining - 1, by omega⟩
    have : attempt = cfg.RETRY_ATTEMPTS := by omega
    subst this
    simp only [requestLoop, hlast, if_true, runTrace]
  | succ d ih =>
    intro remaining attempt hinv hle hfail hlast
    obtain ⟨r, rfl⟩ : ∃ r, remaining = r + 1 := ⟨remaining - 1, by omega⟩
    obtain ⟨e, he⟩ := hfail attempt (Nat.le_refl _) (by omega)
    have hne : attempt ≠ cfg.RETRY_ATTEMPTS := by omega
    have hrec := ih r (attempt + 1) (by omega) (by omega)
      (fun j h1 h2 => hfail j (by omega) (by omega)) hlast
    simp only [requestLoop, he, hne, if_false, hrec, runTrace]

theorem request_success (cfg : Config) (endpoint method : String) (body : Option RequestBody)
    (server : Nat → FetchResult) (data : Payload) (status k : Nat)
    (h1 : 1 ≤ k) (hk : k ≤ cfg.RETRY_ATTEMPTS)
    (hfail : ∀ j, 1 ≤ j → j < k → Fails (server j))
    (hok : attemptBody (server k) = .ok (data, status)) :
    request cfg endpoint method body server =
      (some (.success data status),
        runTrace cfg (cfg.API_BASE_URL ++ endpoint) method body 1 (k - 1)) := by
  unfold request
  exact requestLoop_success cfg _ method body server data status (k - 1) cfg.RETRY_ATTEMPTS 1
    (by omega) (by omega) (fun j a b => hfail j a (by omega))
    (by rw [show 1 + (k - 1) = k by omega]; exact hok)

theorem request_failure (cfg : Config) (endpoint method : String) (body : Option RequestBody)
    (server : Nat → FetchResult) (last : JsError)
    (hm : 1 ≤ cfg.RETRY_ATTEMPTS)
    (hfail : ∀ j, 1 ≤ j → j < cfg.RETRY_ATTEMPTS → Fails (server j))
    (hlast : attemptBody (server cfg.RETRY_ATTEMPTS) = .error last) :
    request cfg endpoint method body server =
      (some (.failure (if last.name = "AbortError" then "Request timeout" else last.message) 0),
        runTrace cfg (cfg.API_BASE_URL ++ endpoint) method body 1 (cfg.RETRY_ATTEMPTS - 1)) := by
  unfold request
  exact requestLoop_failure cfg _ method body server last (cfg.RETRY_ATTEMPTS - 1)
    cfg.RETRY_ATTEMPTS 1 (by omega) (by omega) (fun j a b => hfail j a (by omega)) hlast

/-! ## Lemmas on `validate` -/

theorem requestLoop_events (cfg : Config) (url method : String) (body : Option RequestBody)
    (server : Nat → FetchResult) :
    ∀ remaining attempt, ∀ ev ∈ (requestLoop cfg url method body server remaining attempt).2,
      (∃ ms, ev = .sleep ms) ∨ ∃ n, ev = .fetch n url method body cfg.TIMEOUT := by
  intro remaining
  induction remaining with
  | zero => intro attempt ev hev; simp [requestLoop] at hev
  | succ r ih =>
    intro attempt ev hev
    unfold requestLoop at hev
    cases hb : attemptBody (server attempt) with
    | ok res =>
      simp only [hb, List.mem_singleton] at hev
      exact Or.inr ⟨attempt, hev⟩
    | error e =>
      simp only [hb] at hev
      split at hev
      · simp only [List.mem_singleton] at hev
        exact Or.inr ⟨attempt, hev⟩
      · simp only [List.mem_cons] at hev
        rcases hev with h | h | h
        · exact Or.inr ⟨attempt, h⟩
        · exact Or.inl ⟨_, h⟩
        · exact ih (attempt + 1) ev h

theorem validate_wellFormed (cfg : Config) (server : Nat → FetchResult) (raw : String)
    (hkey : isValidLicenseFormat (formatLicenseKey raw) = true) :
    validate cfg server raw =
      match (validateLicense cfg server (formatLicenseKey raw)).1 with
      | none =>
        (.error ⟨"TypeError", "Cannot read properties of undefined (reading 'success')"⟩,
          (validateLicense cfg server (formatLicenseKey raw)).2)
      | some (.failure error _) =>
        (.error ⟨"Error", orElse (some error) "Network error"⟩,
          (validateLicense cfg server (formatLicenseKey raw)).2)
      | some (.success data _) =>
        if !data.valid then
          (.error ⟨"Error", orElse data.error "Invalid license"⟩,
            (validateLicense cfg server (formatLicenseKey raw)).2)
        else (.ok data, (validateLicense cfg server (formatLicenseKey raw)).2) := by
  simp only [validate, hkey, Bool.not_true, Bool.false_eq_true, if_false]

theorem validate_exhausted (cfg : Config) (server : Nat → FetchResult) (raw : String)
    (last : JsError) (hm : 1 ≤ cfg.RETRY_ATTEMPTS)
    (hkey : isValidLicenseFormat (formatLicenseKey raw) = true)
    (hfail : ∀ j, 1 ≤ j → j < cfg.RETRY_ATTEMPTS → Fails (server j))
    (hlast : attemptBody (server cfg.RETRY_ATTEMPTS) = .error last) :
    validate cfg server raw =
      (.error ⟨"Error", orElse
          (some (if last.name = "AbortError" then "Request timeout" else last.message))
          "Network error"⟩,
        runTrace cfg (cfg.API_BASE_URL ++ cfg.VALIDATE) "POST"
          (some ⟨formatLicenseKey raw, "browser-check"⟩) 1 (cfg.RETRY_ATTEMPTS - 1)) := by
  rw [validate_wellFormed cfg server raw hkey]
  simp only [validateLicense, request_failure cfg _ _ _ server last hm hfail hlast]

theorem http_message_ne_empty (status : Nat) (statusText : String) :
    "HTTP " ++ toString status ++ ": " ++ statusText ≠ "" := by
  intro h
  have := congrArg String.data h
  simp only [String.data_append] at this
  exact absurd this (by simp [String.data])

/-! ## `formatLicenseKey` against the described normalization -/

theorem matchDot14Aux_eq_groupsOf4 (s : List Char) (hs : ∀ c ∈ s, isLineTerminator c = false) :
    ∀ cur : List Char, cur.length ≤ 3 →
      matchDot14Aux cur s = (groupsOf4 (cur ++ s)).map String.mk := by
  induction s with
  | nil =>
    intro cur hcur
    match cur, hcur with
    | [], _ => rfl
    | [_], _ => rfl
    | [_, _], _ => rfl
    | [_, _, _], _ => rfl
  | cons c cs ih =>
    intro cur hcur
    have hc : isLineTerminator c = false := hs c (by simp)
    have ih1 := ih fun d hd => hs d (by simp [hd])
    unfold matchDot14Aux
    simp only [hc, Bool.false_eq_true, if_false]
    by_cases h3 : cur.length = 3
    · rw [if_pos h3, ih1 [] (by simp)]
      match cur, h3 with
      | [x, y, z], _ => simp [groupsOf4]
    · rw [if_neg h3, ih1 (cur ++ [c]) (by simp; omega)]
      simp

theorem intercalate_cons (sep a : List Char) (as : List (List Char)) :
    List.intercalate sep (a :: as) = a ++ as.flatMap fun b => sep ++ b := by
  induction as generalizing a with
  | nil => simp [List.intercalate]
  | cons b bs ih =>
    have := ih b
    simp only [List.intercalate, List.intersperse_cons₂, List.flatten_cons, List.flatMap_cons]
      at this ⊢
    rw [this]
    simp

theorem join_map_mk (parts : List (List Char)) :
    join "-" (parts.map String.mk) = ⟨List.intercalate ['-'] parts⟩ := by
  have h : ∀ s t : String, s.data = t.data → s = t := fun s t h => by
    cases s; cases t; exact congrArg String.mk h
  apply h
  rw [data_join]
  cases parts with
  | nil => rfl
  | cons a as =>
    simp only [List.map_cons, intercalate_cons]
    congr 1
    induction as with
    | nil => rfl
    | cons b bs ih => simp only [List.map_cons, List.flatMap_cons, ih]

theorem filter_upper_eq (l : List Char) :
    ((l.filter fun c => !isAsciiLower c).filter isAsciiAlnum).map asciiUpper =
      l.filter isUpperAlnum := by
  induction l with
  | nil => rfl
  | cons a as ih =>
    by_cases hlow : 97 ≤ a.toNat ∧ a.toNat ≤ 122
    · have h0 : isAsciiLower a = true := by
        simp only [isAsciiLower, Bool.and_eq_true, decide_eq_true_eq]
        exact hlow
      have e : List.filter (fun c => !isAsciiLower c) (a :: as) =
          List.filter (fun c => !isAsciiLower c) as := by
        simp [List.filter_cons, h0]
      have h1 : isUpperAlnum a = false := by
        simp only [isUpperAlnum, Bool.or_eq_false_iff, Bool.and_eq_false_iff,
          decide_eq_false_iff_not]
        omega
      rw [e, List.filter_cons_of_neg (by simp [h1]), ih]
    · have h0 : isAsciiLower a = false := by
        simp only [isAsciiLower, Bool.and_eq_false_iff, decide_eq_false_iff_not]
        omega
      have e : List.filter (fun c => !isAsciiLower c) (a :: as) =
          a :: List.filter (fun c => !isAsciiLower c) as := by
        simp [List.filter_cons, h0]
      have h2 : isAsciiAlnum a = isUpperAlnum a := by
        rw [Bool.eq_iff_iff]
        simp only [isAsciiAlnum, isUpperAlnum, Bool.or_eq_true, Bool.and_eq_true,
          decide_eq_true_eq]
        omega
      have h3 : asciiUpper a = a := by unfold asciiUpper; rw [if_neg hlow]
      rw [e]
      by_cases hu : isUpperAlnum a = true
      · rw [List.filter_cons_of_pos (by rw [h2]; exact hu), List.filter_cons_of_pos hu,
          List.map_cons, h3, ih]
      · rw [List.filter_cons_of_neg (by rw [h2]; exact hu), List.filter_cons_of_neg hu, ih]

theorem formatLicenseKey_eq_specNormalize (x : String) :
    formatLicenseKey x =
      specNormalize ⟨x.data.filter fun c => !isAsciiLower c⟩ := by
  rw [formatLicenseKey_eq]
  unfold specNormalize
  simp only [filter_upper_eq]
  have hd : (replaceNonUpperAlnum x).data = x.data.filter isUpperAlnum := rfl
  rw [hd]
  split
  · rfl
  · rw [matchDot14, hd, matchDot14Aux_eq_groupsOf4 _ (fun c hc =>
      isUpperAlnum_not_lineTerminator c (List.mem_filter.mp hc).2) [] (by simp)]
    exact join_map_mk _

/-! ## Claims on the key utilities -/

/-- C1, at the specification's own example: `formatLicenseKey` deletes the lowercase letters
of "abcd1234efgh5678" instead of uppercasing them and returns "1234-5678", where the described
normalization gives "ABCD-1234-EFGH-5678". For every input, what it returns is the described
normalization of the input with its lowercase ASCII letters deleted beforehand. -/
theorem formatLicenseKey_drops_lowercase :
    formatLicenseKey "abcd1234efgh5678" = "1234-5678" ∧
      specNormalize "abcd1234efgh5678" = "ABCD-1234-EFGH-5678" ∧
      formatLicenseKey "abcd1234efgh5678" ≠ specNormalize "abcd1234efgh5678" ∧
      ∀ x : String,
        formatLicenseKey x = specNormalize ⟨x.data.filter fun c => !isAsciiLower c⟩ :=
  ⟨by decide, by decide, by decide, formatLicenseKey_eq_specNormalize⟩

/-- C2: `formatLicenseKey` is idempotent, for every input text. -/
theorem formatLicenseKey_idempotent (x : String) :
    formatLicenseKey (formatLicenseKey x) = formatLicenseKey x := by
  rw [formatLicenseKey_eq (formatLicenseKey x), replace_formatLicenseKey, ← formatLicenseKey_eq]

/-- C3 as stated fails: the 24-character key "PECU-AB12-CD34-EF56-GH7ſ", whose last character
is the long s (U+017F, not an ASCII letter or digit), is accepted, because `toUpperCase` turns
it into `S`; so is the 23-character "PECU-AB12-CD34-EF56-GHﬁ". -/
theorem isValidLicenseFormat_accepts_long_s :
    isValidLicenseFormat "PECU-AB12-CD34-EF56-GH7ſ" = true ∧
      hasLicenseShape "PECU-AB12-CD34-EF56-GH7ſ" = false ∧
      isAsciiAlnum 'ſ' = false ∧
      isValidLicenseFormat "PECU-AB12-CD34-EF56-GHﬁ" = true ∧
      jsLength "PECU-AB12-CD34-EF56-GHﬁ" = 23 := by
  decide

/-- C3, amended: for every key without one of the ten characters `toUpperCase` folds into ASCII
letters (ß, ı, ſ, ﬀ, ﬁ, ﬂ, ﬃ, ﬄ, ﬅ, ﬆ), `isValidLicenseFormat` returns true exactly when the
key has 24 characters of the shape `PECU-XXXX-XXXX-XXXX-XXXX` (prefix in either case, `-` at
offsets 4, 9, 14, 19, ASCII letters or digits elsewhere); it is a total boolean function, true
for "PECU-AB12-CD34-EF56-GH78", false for "PECU-AB12-CD34-EF56" and "XXXX-AB12-CD34-EF56-GH78". -/
theorem isValidLicenseFormat_iff_shape :
    (∀ k : String, (∀ c ∈ k.data, c ∉ asciiFolding) →
      (isValidLicenseFormat k = true ↔ hasLicenseShape k = true)) ∧
    isValidLicenseFormat "PECU-AB12-CD34-EF56-GH78" = true ∧
    isValidLicenseFormat "PECU-AB12-CD34-EF56" = false ∧
    isValidLicenseFormat "XXXX-AB12-CD34-EF56-GH78" = false :=
  ⟨fun k hk => by rw [isValid_eq_shape k hk], by decide, by decide, by decide⟩

/-- Witness for the amended C3: the lowercase key
"pecu-ab12-cd34-ef56-gh78" has none of the folding characters, has the shape, and is accepted. -/
theorem isValidLicenseFormat_iff_shape_witness :
    (∀ c ∈ ("pecu-ab12-cd34-ef56-gh78" : String).data, c ∉ asciiFolding) ∧
      hasLicenseShape "pecu-ab12-cd34-ef56-gh78" = true ∧
      isValidLicenseFormat "pecu-ab12-cd34-ef56-gh78" = true :=
  ⟨by decide, by decide,
    (isValidLicenseFormat_iff_shape.1 "pecu-ab12-cd34-ef56-gh78" (by decide)).mpr (by decide)⟩

/-! ## Claims on the executor and the workflow -/

/-- C4: with `RETRY_ATTEMPTS ≥ 1`, `ApiClient.request` makes attempts 1, 2, … in order. If
attempt `k ≤ RETRY_ATTEMPTS` is the first to succeed it returns that success after exactly the
attempts 1..k; if the first `RETRY_ATTEMPTS` attempts all fail it returns a failure with status
0 after exactly the attempts 1..RETRY_ATTEMPTS. In both cases the trace is one fetch per
attempt with a suspension of `RETRY_DELAY * i` after each attempt `i` but the last, so the
suspensions are `RETRY_DELAY * 1, …, RETRY_DELAY * (n - 1)`. With two failures and then a
success (and at least three attempts allowed) it returns the success after attempts 1, 2, 3
with total suspension `RETRY_DELAY * 1 + RETRY_DELAY * 2`. -/
theorem request_attempts_and_suspensions (cfg : Config) (endpoint method : String)
    (body : Option RequestBody) (server : Nat → FetchResult) (hm : 1 ≤ cfg.RETRY_ATTEMPTS) :
    (∀ k data status, 1 ≤ k → k ≤ cfg.RETRY_ATTEMPTS →
      (∀ j, 1 ≤ j → j < k → Fails (server j)) →
      attemptBody (server k) = .ok (data, status) →
      (request cfg endpoint method body server).1 = some (.success data status) ∧
      (request cfg endpoint method body server).2 =
        runTrace cfg (cfg.API_BASE_URL ++ endpoint) method body 1 (k - 1) ∧
      attemptsOf (request cfg endpoint method body server).2 = List.range' 1 k ∧
      sleepsOf (request cfg endpoint method body server).2 =
        (List.range' 1 (k - 1)).map fun i => cfg.RETRY_DELAY * i) ∧
    ((∀ j, 1 ≤ j → j ≤ cfg.RETRY_ATTEMPTS → Fails (server j)) →
      (∃ error, (request cfg endpoint method body server).1 = some (.failure error 0)) ∧
      (request cfg endpoint method body server).2 =
        runTrace cfg (cfg.API_BASE_URL ++ endpoint) method body 1 (cfg.RETRY_ATTEMPTS - 1) ∧
      attemptsOf (request cfg endpoint method body server).2 =
        List.range' 1 cfg.RETRY_ATTEMPTS ∧
      sleepsOf (request cfg endpoint method body server).2 =
        (List.range' 1 (cfg.RETRY_ATTEMPTS - 1)).map fun i => cfg.RETRY_DELAY * i) ∧
    (∀ data status, 3 ≤ cfg.RETRY_ATTEMPTS → Fails (server 1) → Fails (server 2) →
      attemptBody (server 3) = .ok (data, status) →
      (request cfg endpoint method body server).1 = some (.success data status) ∧
      attemptsOf (request cfg endpoint method body server).2 = [1, 2, 3] ∧
      (sleepsOf (request cfg endpoint method body server).2).sum =
        cfg.RETRY_DELAY * 1 + cfg.RETRY_DELAY * 2) := by
  have hsucc : ∀ k data status, 1 ≤ k → k ≤ cfg.RETRY_ATTEMPTS →
      (∀ j, 1 ≤ j → j < k → Fails (server j)) →
      attemptBody (server k) = .ok (data, status) →
      (request cfg endpoint method body server).1 = some (.success data status) ∧
      (request cfg endpoint method body server).2 =
        runTrace cfg (cfg.API_BASE_URL ++ endpoint) method body 1 (k - 1) ∧
      attemptsOf (request cfg endpoint method body server).2 = List.range' 1 k ∧
      sleepsOf (request cfg endpoint method body server).2 =
        (List.range' 1 (k - 1)).map fun i => cfg.RETRY_DELAY * i := by
    intro k data status h1 hk hfail hok
    rw [request_success cfg endpoint method body server data status k h1 hk hfail hok]
    refine ⟨rfl, rfl, ?_, ?_⟩
    · rw [attemptsOf_runTrace, show k - 1 + 1 = k by omega]
    · rw [sleepsOf_runTrace]
  refine ⟨hsucc, ?_, ?_⟩
  · intro hfail
    obtain ⟨last, hlast⟩ := hfail cfg.RETRY_ATTEMPTS hm (Nat.le_refl _)
    rw [request_failure cfg endpoint method body server last hm
      (fun j a b => hfail j a (by omega)) hlast]
    refine ⟨⟨_, rfl⟩, rfl, ?_, ?_⟩
    · rw [attemptsOf_runTrace, show cfg.RETRY_ATTEMPTS - 1 + 1 = cfg.RETRY_ATTEMPTS by omega]
    · rw [sleepsOf_runTrace]
  · intro data status h3 f1 f2 hok
    have hfail : ∀ j, 1 ≤ j → j < 3 → Fails (server j) := by
      intro j a b
      rcases (by omega : j = 1 ∨ j = 2) with rfl | rfl
      · exact f1
      · exact f2
    obtain ⟨r1, _, r3, r4⟩ := hsucc 3 data status (by omega) h3 hfail hok
    refine ⟨r1, by rw [r3]; rfl, ?_⟩
    rw [r4]
    simp [List.range']

/-- Witness for C4 on the shipped configuration: two transport
failures then a success give the success after attempts 1, 2, 3 with suspensions 1000 and
2000; a network that always times out gives a failure after attempts 1, 2, 3. -/
theorem request_attempts_and_suspensions_witness :
    1 ≤ CONFIG.RETRY_ATTEMPTS ∧
    (request CONFIG CONFIG.VALIDATE "POST" none (thirdTimeLucky proPayload)).1 =
      some (.success proPayload 200) ∧
    attemptsOf (request CONFIG CONFIG.VALIDATE "POST" none (thirdTimeLucky proPayload)).2 =
      [1, 2, 3] ∧
    (sleepsOf (request CONFIG CONFIG.VALIDATE "POST" none (thirdTimeLucky proPayload)).2).sum =
      1000 * 1 + 1000 * 2 ∧
    attemptsOf (request CONFIG CONFIG.VALIDATE "POST" none alwaysTimeout).2 =
      List.range' 1 3 :=
  ⟨by decide,
    ((request_attempts_and_suspensions CONFIG CONFIG.VALIDATE "POST" none
      (thirdTimeLucky proPayload) (by decide)).2.2 proPayload 200 (by decide)
      ⟨_, rfl⟩ ⟨_, rfl⟩ rfl).1,
    ((request_attempts_and_suspensions CONFIG CONFIG.VALIDATE "POST" none
      (thirdTimeLucky proPayload) (by decide)).2.2 proPayload 200 (by decide)
      ⟨_, rfl⟩ ⟨_, rfl⟩ rfl).2.1,
    ((request_attempts_and_suspensions CONFIG CONFIG.VALIDATE "POST" none
      (thirdTimeLucky proPayload) (by decide)).2.2 proPayload 200 (by decide)
      ⟨_, rfl⟩ ⟨_, rfl⟩ rfl).2.2,
    ((request_attempts_and_suspensions CONFIG CONFIG.VALIDATE "POST" none
      alwaysTimeout (by decide)).2.1 (fun _ _ _ => ⟨_, rfl⟩)).2.2.1⟩

/-- C5: when the normalized key fails the format check, `validate` throws the malformed-key
error and performs no executor step at all; and every fetch `validate` ever performs carries a
key that passes the format check. -/
theorem validate_malformed_no_network (cfg : Config) (server : Nat → FetchResult)
    (raw : String) :
    (isValidLicenseFormat (formatLicenseKey raw) = false →
      validate cfg server raw = (.error malformedError, [])) ∧
    (∀ n url method body timeout,
      Event.fetch n url method body timeout ∈ (validate cfg server raw).2 →
      ∃ b, body = some b ∧ isValidLicenseFormat b.license_key = true) := by
  constructor
  · intro h
    simp [validate, h]
  · intro n url method body timeout hev
    cases hkey : isValidLicenseFormat (formatLicenseKey raw) with
    | false => simp [validate, hkey] at hev
    | true =>
      have htr : (validate cfg server raw).2 =
          (validateLicense cfg server (formatLicenseKey raw)).2 := by
        rw [validate_wellFormed cfg server raw hkey]
        split
        · rfl
        · rfl
        · split <;> rfl
      rw [htr] at hev
      rcases requestLoop_events cfg _ _ _ server _ _ _ hev with ⟨ms, h⟩ | ⟨m, h⟩
      · cases h
      · injection h with _ _ _ hb _
        exact ⟨_, hb, hkey⟩

/-- Witness for C5: the key "PECU-AB12-CD34-EF56" (one group short) fails the format check and
is rejected without a fetch; the well-formed sample key is fetched with a valid key. -/
theorem validate_malformed_no_network_witness :
    isValidLicenseFormat (formatLicenseKey "PECU-AB12-CD34-EF56") = false ∧
    validate CONFIG alwaysTimeout "PECU-AB12-CD34-EF56" = (.error malformedError, []) ∧
    Event.fetch 1 (CONFIG.API_BASE_URL ++ CONFIG.VALIDATE) "POST"
      (some ⟨sampleKey, "browser-check"⟩) CONFIG.TIMEOUT ∈
      (validate CONFIG alwaysTimeout sampleKey).2 ∧
    ∃ b, some (⟨sampleKey, "browser-check"⟩ : RequestBody) = some b ∧
      isValidLicenseFormat b.license_key = true :=
  ⟨by decide,
    (validate_malformed_no_network CONFIG alwaysTimeout "PECU-AB12-CD34-EF56").1 (by decide),
    by decide,
    (validate_malformed_no_network CONFIG alwaysTimeout sampleKey).2 1
      (CONFIG.API_BASE_URL ++ CONFIG.VALIDATE) "POST" (some ⟨sampleKey, "browser-check"⟩)
      CONFIG.TIMEOUT (by decide)⟩

/-- C6 as stated fails: with the shipped configuration and a well-formed key, two timeouts
followed by a 500 answer are three failed attempts with a timeout among them, yet `validate`
throws "HTTP 500: Internal Server Error", not "Request timeout". -/
theorem validate_timeout_then_http_not_timeout :
    isValidLicenseFormat (formatLicenseKey sampleKey) = true ∧
    timeoutThen500 1 = .rejected ⟨"AbortError", "The operation was aborted."⟩ ∧
    attemptsOf (validate CONFIG timeoutThen500 sampleKey).2 = [1, 2, 3] ∧
    (validate CONFIG timeoutThen500 sampleKey).1 =
      .error ⟨"Error", "HTTP 500: Internal Server Error"⟩ ∧
    (validate CONFIG timeoutThen500 sampleKey).1 ≠ .error ⟨"Error", "Request timeout"⟩ := by
  decide

/-- C6, amended: for a well-formed key and `RETRY_ATTEMPTS ≥ 1` failed attempts of which the
last one is a timeout (the fetch is aborted), `validate` throws "Request timeout" after exactly
the attempts 1..RETRY_ATTEMPTS; in particular so when every attempt times out. -/
theorem validate_timeout_on_last_attempt (cfg : Config) (server : Nat → FetchResult)
    (raw : String) (hm : 1 ≤ cfg.RETRY_ATTEMPTS)
    (hkey : isValidLicenseFormat (formatLicenseKey raw) = true) :
    ((∀ j, 1 ≤ j → j < cfg.RETRY_ATTEMPTS → Fails (server j)) →
      (∃ message, server cfg.RETRY_ATTEMPTS = .rejected ⟨"AbortError", message⟩) →
      (validate cfg server raw).1 = .error ⟨"Error", "Request timeout"⟩ ∧
      attemptsOf (validate cfg server raw).2 = List.range' 1 cfg.RETRY_ATTEMPTS) ∧
    ((∀ j, 1 ≤ j → j ≤ cfg.RETRY_ATTEMPTS →
        ∃ message, server j = .rejected ⟨"AbortError", message⟩) →
      (validate cfg server raw).1 = .error ⟨"Error", "Request timeout"⟩ ∧
      attemptsOf (validate cfg server raw).2 = List.range' 1 cfg.RETRY_ATTEMPTS) := by
  have main : (∀ j, 1 ≤ j → j < cfg.RETRY_ATTEMPTS → Fails (server j)) →
      (∃ message, server cfg.RETRY_ATTEMPTS = .rejected ⟨"AbortError", message⟩) →
      (validate cfg server raw).1 = .error ⟨"Error", "Request timeout"⟩ ∧
      attemptsOf (validate cfg server raw).2 = List.range' 1 cfg.RETRY_ATTEMPTS := by
    intro hfail ⟨message, hlast⟩
    have hb : attemptBody (server cfg.RETRY_ATTEMPTS) = .error ⟨"AbortError", message⟩ := by
      rw [hlast]; rfl
    rw [validate_exhausted cfg server raw _ hm hkey hfail hb]
    refine ⟨by simp [orElse], ?_⟩
    rw [attemptsOf_runTrace, show cfg.RETRY_ATTEMPTS - 1 + 1 = cfg.RETRY_ATTEMPTS by omega]
  refine ⟨main, fun hall => main (fun j a b => ?_) (hall _ hm (Nat.le_refl _))⟩
  obtain ⟨message, h⟩ := hall j a (by omega)
  exact ⟨_, by rw [h]; rfl⟩

/-- Witness for the amended C6: the shipped configuration, the sample key
and a network that always times out. -/
theorem validate_timeout_on_last_attempt_witness :
    1 ≤ CONFIG.RETRY_ATTEMPTS ∧
    isValidLicenseFormat (formatLicenseKey sampleKey) = true ∧
    (validate CONFIG alwaysTimeout sampleKey).1 = .error ⟨"Error", "Request timeout"⟩ ∧
    attemptsOf (validate CONFIG alwaysTimeout sampleKey).2 = List.range' 1 3 :=
  ⟨by decide, by decide,
    (validate_timeout_on_last_attempt CONFIG alwaysTimeout sampleKey (by decide) (by decide)).2
      fun _ _ _ => ⟨_, rfl⟩⟩

/-- C7 as stated fails: with the shipped configuration and a well-formed key, three 500
answers make `validate` throw the raw status text "HTTP 500: Internal Server Error", not
"Network error"; three transport failures make it throw the transport message. -/
theorem validate_http_failure_not_network_error :
    isValidLicenseFormat (formatLicenseKey sampleKey) = true ∧
    (validate CONFIG always500 sampleKey).1 =
      .error ⟨"Error", "HTTP 500: Internal Server Error"⟩ ∧
    (validate CONFIG always500 sampleKey).1 ≠ .error ⟨"Error", "Network error"⟩ ∧
    (validate CONFIG (fun _ => .rejected ⟨"TypeError", "Failed to fetch"⟩) sampleKey).1 =
      .error ⟨"Error", "Failed to fetch"⟩ := by
  decide

/-- C7, amended: for a well-formed key, when all `RETRY_ATTEMPTS ≥ 1` attempts fail and the
last failure is not a timeout, `validate` throws an error whose message is the message of that
last failure, and "Network error" only when that message is empty; for a last answer with a
non-2xx status the message is `HTTP <status>: <statusText>`. -/
theorem validate_failure_message (cfg : Config) (server : Nat → FetchResult) (raw : String)
    (hm : 1 ≤ cfg.RETRY_ATTEMPTS)
    (hkey : isValidLicenseFormat (formatLicenseKey raw) = true)
    (hfail : ∀ j, 1 ≤ j → j < cfg.RETRY_ATTEMPTS → Fails (server j)) :
    (∀ last, attemptBody (server cfg.RETRY_ATTEMPTS) = .error last →
      last.name ≠ "AbortError" →
      (last.message ≠ "" → (validate cfg server raw).1 = .error ⟨"Error", last.message⟩) ∧
      (last.message = "" → (validate cfg server raw).1 = .error ⟨"Error", "Network error"⟩)) ∧
    (∀ status statusText json, server cfg.RETRY_ATTEMPTS = .response status statusText json →
      responseOk status = false →
      (validate cfg server raw).1 =
        .error ⟨"Error", "HTTP " ++ toString status ++ ": " ++ statusText⟩) := by
  have main : ∀ last, attemptBody (server cfg.RETRY_ATTEMPTS) = .error last →
      last.name ≠ "AbortError" →
      (last.message ≠ "" → (validate cfg server raw).1 = .error ⟨"Error", last.message⟩) ∧
      (last.message = "" → (validate cfg server raw).1 = .error ⟨"Error", "Network error"⟩) := by
    intro last hlast hname
    rw [validate_exhausted cfg server raw last hm hkey hfail hlast]
    constructor
    · intro hne; simp [orElse, hname, hne]
    · intro he; simp [orElse, hname, he]
  refine ⟨main, ?_⟩
  intro status statusText json hlast hok
  have hb : attemptBody (server cfg.RETRY_ATTEMPTS) =
      .error ⟨"Error", "HTTP " ++ toString status ++ ": " ++ statusText⟩ := by
    rw [hlast]; simp [attemptBody, hok]
  have hname : ("Error" : String) ≠ "AbortError" := by decide
  exact (main _ hb hname).1 (http_message_ne_empty status statusText)

/-- Witness for the amended C7: the shipped configuration, the sample key and a
network that always answers 500. -/
theorem validate_failure_message_witness :
    1 ≤ CONFIG.RETRY_ATTEMPTS ∧
    isValidLicenseFormat (formatLicenseKey sampleKey) = true ∧
    (∀ j, 1 ≤ j → j < CONFIG.RETRY_ATTEMPTS → Fails (always500 j)) ∧
    (validate CONFIG always500 sampleKey).1 =
      .error ⟨"Error", "HTTP " ++ toString 500 ++ ": " ++ "Internal Server Error"⟩ :=
  ⟨by decide, by decide, fun _ _ _ => ⟨_, rfl⟩,
    (validate_failure_message CONFIG always500 sampleKey (by decide) (by decide)
      fun _ _ _ => ⟨_, rfl⟩).2 500 "Internal Server Error" _ rfl (by decide)⟩

/-- C8 as stated fails: for the payload `{valid: false, error: ""}` the error string is
present, yet `validate` throws "Invalid license" and not that (empty) string. -/
theorem validate_empty_error_not_verbatim :
    isValidLicenseFormat (formatLicenseKey sampleKey) = true ∧
    (validateLicense CONFIG (answers emptyErrorPayload) (formatLicenseKey sampleKey)).1 =
      some (.success emptyErrorPayload 200) ∧
    emptyErrorPayload.valid = false ∧
    emptyErrorPayload.error = some "" ∧
    (validate CONFIG (answers emptyErrorPayload) sampleKey).1 =
      .error ⟨"Error", "Invalid license"⟩ ∧
    (validate CONFIG (answers emptyErrorPayload) sampleKey).1 ≠ .error ⟨"Error", ""⟩ := by
  decide

/-- C8, amended: for a well-formed key and a successful outcome whose payload has `valid`
false, `validate` throws an error carrying the payload's `error` string verbatim when it is
present and not empty, and "Invalid license" when it is absent or empty. -/
theorem validate_rejected_reason (cfg : Config) (server : Nat → FetchResult) (raw : String)
    (data : Payload) (status : Nat)
    (hkey : isValidLicenseFormat (formatLicenseKey raw) = true)
    (hok : (validateLicense cfg server (formatLicenseKey raw)).1 = some (.success data status))
    (hvalid : data.valid = false) :
    (∀ reason, data.error = some reason → reason ≠ "" →
      (validate cfg server raw).1 = .error ⟨"Error", reason⟩) ∧
    (data.error = none ∨ data.error = some "" →
      (validate cfg server raw).1 = .error ⟨"Error", "Invalid license"⟩) := by
  rw [validate_wellFormed cfg server raw hkey]
  simp only [hok, hvalid, Bool.not_false, if_true]
  constructor
  · intro reason h hne
    simp [orElse, h, hne]
  · rintro (h | h) <;> simp [orElse, h]

/-- Witness for the amended C8: the payload `{valid: false, error: "License
expired"}` makes `validate` throw "License expired". -/
theorem validate_rejected_reason_witness :
    isValidLicenseFormat (formatLicenseKey sampleKey) = true ∧
    (validateLicense CONFIG (answers expiredPayload) (formatLicenseKey sampleKey)).1 =
      some (.success expiredPayload 200) ∧
    expiredPayload.valid = false ∧
    (validate CONFIG (answers expiredPayload) sampleKey).1 =
      .error ⟨"Error", "License expired"⟩ :=
  ⟨by decide, by decide, by decide,
    (validate_rejected_reason CONFIG (answers expiredPayload) sampleKey expiredPayload 200
      (by decide) (by decide) (by decide)).1 "License expired" rfl (by decide)⟩

/-- C9 as stated fails on its own example: for the payload
`{valid: true, plan: "Pro", features: ["a","b"]}` `validate` succeeds, but the plan shown is
"Unknown", not "Pro", because `showValidationSuccess` reads `data.user.plan`. -/
theorem showValidationSuccess_ignores_top_level_plan :
    isValidLicenseFormat (formatLicenseKey sampleKey) = true ∧
    (validate CONFIG (answers proPayload) sampleKey).1 = .ok proPayload ∧
    proPayload.plan = some "Pro" ∧
    (showValidationSuccess invalidDates proPayload).plan = "Unknown" ∧
    (showValidationSuccess invalidDates proPayload).plan ≠ "Pro" := by
  decide

/-- C9, amended: for a well-formed key and a successful outcome whose payload has `valid` true,
`validate` returns the payload, and `showValidationSuccess` shows: as plan the payload's
`user.plan` (not a top-level `plan`), "Unknown" when `user` or `user.plan` is absent or empty;
as downloads `downloads_remaining`, '∞' when absent; as expiry the en-US rendering of
`expiry_date` ("Invalid Date" for a text that is not a date), '—' when it is absent or empty;
as features `features`, the empty list when absent. For `{valid: true, plan: "Pro", features: ["a","b"]}` this gives plan
"Unknown", downloads '∞', expiry '—' and features ["a","b"]. -/
theorem validate_success_view (cfg : Config) (server : Nat → FetchResult) (raw : String)
    (toLocaleDateString : String → String) (data : Payload) (status : Nat)
    (hkey : isValidLicenseFormat (formatLicenseKey raw) = true)
    (hok : (validateLicense cfg server (formatLicenseKey raw)).1 = some (.success data status))
    (hvalid : data.valid = true) :
    (validate cfg server raw).1 = .ok data ∧
    (∀ u p, data.user = some u → u.plan = some p → p ≠ "" →
      (showValidationSuccess toLocaleDateString data).plan = p) ∧
    (data.user = none ∨ data.user = some ⟨none⟩ ∨ data.user = some ⟨some ""⟩ →
      (showValidationSuccess toLocaleDateString data).plan = "Unknown") ∧
    (∀ n, data.downloads_remaining = some n →
      (showValidationSuccess toLocaleDateString data).downloadsRemaining = .count n) ∧
    (data.downloads_remaining = none →
      (showValidationSuccess toLocaleDateString data).downloadsRemaining = .text "∞") ∧
    (∀ d, data.expiry_date = some d → d ≠ "" →
      (showValidationSuccess toLocaleDateString data).expiryDate = toLocaleDateString d) ∧
    (data.expiry_date = none ∨ data.expiry_date = some "" →
      (showValidationSuccess toLocaleDateString data).expiryDate = "—") ∧
    (∀ fs, data.features = some fs →
      (showValidationSuccess toLocaleDateString data).features = fs) ∧
    (data.features = none → (showValidationSuccess toLocaleDateString data).features = []) ∧
    showValidationSuccess toLocaleDateString proPayload =
      { plan := "Unknown", downloadsRemaining := .text "∞", expiryDate := "—",
        features := ["a", "b"] } := by
  refine ⟨?_, ?_, ?_, ?_, ?_, ?_, ?_, ?_, ?_, rfl⟩
  · rw [validate_wellFormed cfg server raw hkey]
    simp [hok, hvalid]
  · intro u p hu hp hne
    simp [showValidationSuccess, hu, hp, orElse, hne]
  · rintro (h | h | h) <;> simp [showValidationSuccess, h, orElse]
  · intro n h
    simp [showValidationSuccess, h]
  · intro h
    simp [showValidationSuccess, h]
  · intro d hd hne
    simp [showValidationSuccess, formatDate, hd, hne]
  · rintro (h | h) <;> simp [showValidationSuccess, formatDate, h]
  · intro fs h
    simp [showValidationSuccess, h]
  · intro h
    simp [showValidationSuccess, h]

/-- Witness for the amended C9: the payload
`{valid: true, user: {plan: "Pro"}, downloads_remaining: 5, expiry_date: "not-a-date"}` is
returned and shown with plan "Pro", 5 downloads and expiry "Invalid Date". -/
theorem validate_success_view_witness :
    isValidLicenseFormat (formatLicenseKey sampleKey) = true ∧
    (validateLicense CONFIG (answers userProPayload) (formatLicenseKey sampleKey)).1 =
      some (.success userProPayload 200) ∧
    userProPayload.valid = true ∧
    (validate CONFIG (answers userProPayload) sampleKey).1 = .ok userProPayload ∧
    (showValidationSuccess invalidDates userProPayload).plan = "Pro" ∧
    (showValidationSuccess invalidDates userProPayload).downloadsRemaining = .count 5 ∧
    (showValidationSuccess invalidDates userProPayload).expiryDate = "Invalid Date" :=
  ⟨by decide, by decide, by decide,
    (validate_success_view CONFIG (answers userProPayload) sampleKey invalidDates userProPayload
      200 (by decide) (by decide) (by decide)).1,
    (validate_success_view CONFIG (answers userProPayload) sampleKey invalidDates userProPayload
      200 (by decide) (by decide) (by decide)).2.1 ⟨some "Pro"⟩ "Pro" rfl rfl (by decide),
    (validate_success_view CONFIG (answers userProPayload) sampleKey invalidDates userProPayload
      200 (by decide) (by decide) (by decide)).2.2.2.1 5 rfl,
    (validate_success_view CONFIG (answers userProPayload) sampleKey invalidDates userProPayload
      200 (by decide) (by decide) (by decide)).2.2.2.2.2.1 "not-a-date" rfl (by decide)⟩

/-- C10 as stated fails: reformatting "ABCDEFGH" with the cursor at offset 0 gives
"ABCD-EFGH" with the cursor at offset 1, although no separator was inserted before offset 0
(the claim predicts offset 0). -/
theorem formatLicenseInput_moves_cursor_at_start :
    formatLicenseKey "ABCDEFGH" ≠ "ABCDEFGH" ∧
    formatLicenseInput ⟨"ABCDEFGH", 0⟩ = ⟨"ABCD-EFGH", 1⟩ ∧
    separatorsBefore "ABCDEFGH" 0 = 0 ∧
    (formatLicenseInput ⟨"ABCDEFGH", 0⟩).selectionStart ≠
      min (((0 + separatorsBefore "ABCDEFGH" 0 : Nat) : Int))
        (jsLength (formatLicenseKey "ABCDEFGH") : Int) := by
  decide

/-- C10, amended: when the field's value `v` differs from `formatLicenseKey v`, the field gets
the normalized value and the cursor offset `min (c + d) (length of the new value)`, where `d`
is the whole change in length (new length minus old length, negative when more characters
were removed than separators inserted); for `0 ≤ c ≤ length of v` that is exactly `c + d`. -/
theorem formatLicenseInput_cursor (v : String) (c : Nat) (hc : c ≤ jsLength v)
    (hne : formatLicenseKey v ≠ v) :
    (formatLicenseInput ⟨v, c⟩).value = formatLicenseKey v ∧
    (formatLicenseInput ⟨v, c⟩).selectionStart =
      min ((c : Int) + ((jsLength (formatLicenseKey v) : Int) - (jsLength v : Int)))
        (jsLength (formatLicenseKey v) : Int) ∧
    (formatLicenseInput ⟨v, c⟩).selectionStart =
      (c : Int) + ((jsLength (formatLicenseKey v) : Int) - (jsLength v : Int)) := by
  have hne2 : v ≠ formatLicenseKey v := fun h => hne h.symm
  have h1 : formatLicenseInput ⟨v, c⟩ =
      ⟨formatLicenseKey v,
        min ((c : Int) + ((jsLength (formatLicenseKey v) : Int) - (jsLength v : Int)))
          (jsLength (formatLicenseKey v) : Int)⟩ := by
    simp only [formatLicenseInput, ne_eq, hne2, not_false_eq_true, if_true]
  rw [h1]
  refine ⟨rfl, rfl, ?_⟩
  show min _ _ = _
  have : (c : Int) ≤ (jsLength v : Int) := by exact_mod_cast hc
  omega

/-- Witness for the amended C10: "ABCDEFGH" with the cursor at offset 0. -/
theorem formatLicenseInput_cursor_witness :
    (0 : Nat) ≤ jsLength "ABCDEFGH" ∧ formatLicenseKey "ABCDEFGH" ≠ "ABCDEFGH" ∧
    (formatLicenseInput ⟨"ABCDEFGH", (0 : Nat)⟩).selectionStart =
      ((0 : Nat) : Int) +
        ((jsLength (formatLicenseKey "ABCDEFGH") : Int) - (jsLength "ABCDEFGH" : Int)) :=
  ⟨by decide, by decide,
    (formatLicenseInput_cursor "ABCDEFGH" 0 (by decide) (by decide)).2.2⟩

end Premium
